import Mathlib

/-!
# Verification of the ChocoPy type-hierarchy registry (`src/compiler/typesystem.py`)

Shallow embedding of the `TypeSystem` / `ClassInfo` classes.  Python state is
made explicit: `self.classes` is a `defaultdict(lambda: None)`, so indexing a
missing key *inserts* the key with value `None` and returns that sentinel; we
model each `self.classes[k]` access as `TypeSystem.subscript`, which returns
the looked-up value together with the (possibly extended) registry.  A chained
attribute access on the `None` sentinel raises `AttributeError` in Python; we
model raised exceptions with `Except PyErr`.  Unbounded `while` loops and
recursion over the superclass chain are given explicit fuel; running out of
fuel (`PyErr.outOfFuel`) models divergence on a malformed (cyclic) hierarchy.
-/

set_option autoImplicit false

/-- Modelled from the spec: the value-type variants of the missing `types.py`
module (`ValueType` with `ObjectType`, `IntType`, `BoolType`, `StrType`,
`NoneType`, `EmptyType`, `ClassValueType(className)`, and
`FuncType(parameters, returnType)`); the spec describes them as a closed
tagged variant set with structural equality. -/
inductive ValueType : Type where
  | objectType : ValueType
  | intType : ValueType
  | boolType : ValueType
  | strType : ValueType
  | noneType : ValueType
  | emptyType : ValueType
  | classRef (className : String) : ValueType
  | funcType (parameters : List ValueType) (returnType : ValueType) : ValueType

mutual

/-- Structural equality on value types (Python `==` on the spec's closed
variant set). -/
def beqVT : ValueType → ValueType → Bool
  | .objectType, .objectType => true
  | .intType, .intType => true
  | .boolType, .boolType => true
  | .strType, .strType => true
  | .noneType, .noneType => true
  | .emptyType, .emptyType => true
  | .classRef a, .classRef b => a == b
  | .funcType ps r, .funcType qs s => beqVTList ps qs && beqVT r s
  | _, _ => false

/-- Pointwise structural equality on parameter lists. -/
def beqVTList : List ValueType → List ValueType → Bool
  | [], [] => true
  | a :: as, b :: bs => beqVT a b && beqVTList as bs
  | _, _ => false

end

theorem beqVT_iff_eq : ∀ (a b : ValueType), beqVT a b = true ↔ a = b := by
  have H : ∀ a : ValueType, ∀ b, beqVT a b = true ↔ a = b := by
    intro a
    induction a using ValueType.rec
      (motive_2 := fun as => ∀ bs, beqVTList as bs = true ↔ as = bs) with
    | objectType => intro b; cases b <;> simp [beqVT]
    | intType => intro b; cases b <;> simp [beqVT]
    | boolType => intro b; cases b <;> simp [beqVT]
    | strType => intro b; cases b <;> simp [beqVT]
    | noneType => intro b; cases b <;> simp [beqVT]
    | emptyType => intro b; cases b <;> simp [beqVT]
    | classRef n => intro b; cases b <;> simp [beqVT]
    | funcType ps r ihp ihr =>
      intro b; cases b <;> simp [beqVT, ihp, ihr]
    | nil => rename_i bs; cases bs <;> simp [beqVTList]
    | cons a as iha ihas =>
      rename_i bs; cases bs <;> simp [beqVTList, iha, ihas]
  exact H

instance : DecidableEq ValueType :=
  fun a b => decidable_of_iff (beqVT a b = true) (beqVT_iff_eq a b)

/-- Modelled from the spec: attribute initial values are literal values of the
surface language (the spec calls them `initialValueLiteral`). -/
inductive Lit : Type where
  | noneLit : Lit
  | intLit (n : Int) : Lit
  | boolLit (b : Bool) : Lit
  | strLit (s : String) : Lit
deriving DecidableEq

/-- Python `d[key]` lookup on a dict represented as an insertion-ordered
association list: the first binding of `key` wins (dict keys are unique, so at
most one binding exists for a well-formed dict). -/
def dictLookup {α : Type} (key : String) : List (String × α) → Option α
  | [] => none
  | kv :: rest => if kv.1 = key then some kv.2 else dictLookup key rest

/-- Python `d[key] = v` on an insertion-ordered dict: updating an existing key
keeps its position, a fresh key is appended at the end. -/
def dictInsert {α : Type} (m : List (String × α)) (key : String) (v : α) :
    List (String × α) :=
  match m with
  | [] => [(key, v)]
  | kv :: rest => if kv.1 = key then (key, v) :: rest else kv :: dictInsert rest key v

/-- `ClassInfo` from `typesystem.py`: name, optional superclass name, the
attribute table `attrs` (name ↦ (declared type, initial value)), the method
table `methods` (name ↦ signature) and the insertion-ordered list
`orderedAttrs` of attribute names. -/
structure ClassInfo : Type where
  name : String
  superclass : Option String
  attrs : List (String × ValueType × Lit)
  methods : List (String × ValueType)
  orderedAttrs : List String
deriving DecidableEq

instance {ε α : Type} [DecidableEq ε] [DecidableEq α] : DecidableEq (Except ε α) :=
  fun a b =>
    match a, b with
    | .ok x, .ok y => decidable_of_iff (x = y) (by simp)
    | .error e, .error f => decidable_of_iff (e = f) (by simp)
    | .ok _, .error _ => isFalse (by simp)
    | .error _, .ok _ => isFalse (by simp)

/-- Python exceptions / divergence surfaced by the embedding. -/
inductive PyErr : Type where
  | attributeError : PyErr
  | typeError : PyErr
  | outOfFuel : PyErr
deriving DecidableEq

/-- `TypeSystem`: its only state is `self.classes`, a
`defaultdict(lambda: None)` from class name to `ClassInfo`.  A binding to
`none` is the null sentinel such a defaultdict stores for a missing key that
has been touched. -/
structure TypeSystem : Type where
  classes : List (String × Option ClassInfo)
deriving DecidableEq

namespace TypeSystem

/-- One access `self.classes[key]`: a present key returns its value (possibly
the `none` sentinel); a missing key inserts the sentinel and returns it. -/
def subscript (ts : TypeSystem) (key : String) : Option ClassInfo × TypeSystem :=
  match dictLookup key ts.classes with
  | some v => (v, ts)
  | none => (none, ⟨ts.classes ++ [(key, none)]⟩)

/-- `classExists`: `className in self.classes` — key membership, which counts
a sentinel binding as existing (the source comments on exactly this hazard). -/
def classExists (ts : TypeSystem) (className : String) : Bool :=
  (dictLookup className ts.classes).isSome

/-- `getMethodHelper(className, methodName)`: walk the superclass chain; stop
at the first class whose method table has `methodName`, returning
`(signature, className)`; return `(None, None)` when the rootward walk ends
without a hit.  Accessing a missing class raises (after the defaultdict
inserted its sentinel). -/
def getMethodHelper (fuel : Nat) (ts : TypeSystem) (className methodName : String) :
    Except PyErr (Option ValueType × Option String) × TypeSystem :=
  match fuel with
  | 0 => (.error .outOfFuel, ts)
  | fuel + 1 =>
    match subscript ts className with
    | (none, ts') => (.error .attributeError, ts')
    | (some info, ts') =>
      match dictLookup methodName info.methods with
      | some sig => (.ok (some sig, some className), ts')
      | none =>
        match info.superclass with
        | none => (.ok (none, none), ts')
        | some sup => getMethodHelper fuel ts' sup methodName

/-- `getMethod`: first component of `getMethodHelper`. -/
def getMethod (fuel : Nat) (ts : TypeSystem) (className methodName : String) :
    Except PyErr (Option ValueType) × TypeSystem :=
  match getMethodHelper fuel ts className methodName with
  | (.ok p, ts') => (.ok p.1, ts')
  | (.error e, ts') => (.error e, ts')

/-- `getMethodDefClass`: second component of `getMethodHelper`. -/
def getMethodDefClass (fuel : Nat) (ts : TypeSystem) (className methodName : String) :
    Except PyErr (Option String) × TypeSystem :=
  match getMethodHelper fuel ts className methodName with
  | (.ok p, ts') => (.ok p.2, ts')
  | (.error e, ts') => (.error e, ts')

/-- `getAttrHelper(className, attrName)`: same walk over the attribute tables;
a hit returns the stored `(type, init)` pair, exhaustion returns
`(None, None)`. -/
def getAttrHelper (fuel : Nat) (ts : TypeSystem) (className attrName : String) :
    Except PyErr (Option ValueType × Option Lit) × TypeSystem :=
  match fuel with
  | 0 => (.error .outOfFuel, ts)
  | fuel + 1 =>
    match subscript ts className with
    | (none, ts') => (.error .attributeError, ts')
    | (some info, ts') =>
      match dictLookup attrName info.attrs with
      | some (t, v) => (.ok (some t, some v), ts')
      | none =>
        match info.superclass with
        | none => (.ok (none, none), ts')
        | some sup => getAttrHelper fuel ts' sup attrName

/-- `getAttr`: type component of `getAttrHelper`. -/
def getAttr (fuel : Nat) (ts : TypeSystem) (className attrName : String) :
    Except PyErr (Option ValueType) × TypeSystem :=
  match getAttrHelper fuel ts className attrName with
  | (.ok p, ts') => (.ok p.1, ts')
  | (.error e, ts') => (.error e, ts')

/-- `getAttrInit`: initial-value component of `getAttrHelper`. -/
def getAttrInit (fuel : Nat) (ts : TypeSystem) (className attrName : String) :
    Except PyErr (Option Lit) × TypeSystem :=
  match getAttrHelper fuel ts className attrName with
  | (.ok p, ts') => (.ok p.2, ts')
  | (.error e, ts') => (.error e, ts')

/-- `getAttrOrMethod(className, name)`: at each class check the method table
first, then the attribute table (returning the attribute's type component),
then ascend; exhaustion returns `None`. -/
def getAttrOrMethod (fuel : Nat) (ts : TypeSystem) (className name : String) :
    Except PyErr (Option ValueType) × TypeSystem :=
  match fuel with
  | 0 => (.error .outOfFuel, ts)
  | fuel + 1 =>
    match subscript ts className with
    | (none, ts') => (.error .attributeError, ts')
    | (some info, ts') =>
      match dictLookup name info.methods with
      | some sig => (.ok (some sig), ts')
      | none =>
        match dictLookup name info.attrs with
        | some (t, _) => (.ok (some t), ts')
        | none =>
          match info.superclass with
          | none => (.ok none, ts')
          | some sup => getAttrOrMethod fuel ts' sup name

/-- `isSubClass(a, b)`: `curr = a; while curr is not None: if curr == b:
return True; curr = self.classes[curr].superclass; return False`. -/
def isSubClass (fuel : Nat) (ts : TypeSystem) (a b : String) :
    Except PyErr Bool × TypeSystem :=
  match fuel with
  | 0 => (.error .outOfFuel, ts)
  | fuel + 1 =>
    if a = b then (.ok true, ts)
    else
      match subscript ts a with
      | (none, ts') => (.error .attributeError, ts')
      | (some info, ts') =>
        match info.superclass with
        | none => (.ok false, ts')
        | some sup => isSubClass fuel ts' sup b

/-- `isSubtype(a, b)`: true when `b == ObjectType()`; for two class-reference
types delegate to `isSubClass` on the names; otherwise plain equality. -/
def isSubtype (fuel : Nat) (ts : TypeSystem) (a b : ValueType) :
    Except PyErr Bool × TypeSystem :=
  if b = .objectType then (.ok true, ts)
  else
    match a, b with
    | .classRef an, .classRef bn => isSubClass fuel ts an bn
    | _, _ => (.ok (decide (a = b)), ts)

/-- `canAssign(a, b)`: `isSubtype(a, b)` or (`a == NoneType()` and `b` not in
`[IntType(), StrType(), BoolType()]`). -/
def canAssign (fuel : Nat) (ts : TypeSystem) (a b : ValueType) :
    Except PyErr Bool × TypeSystem :=
  match isSubtype fuel ts a b with
  | (.ok true, ts') => (.ok true, ts')
  | (.ok false, ts') =>
    (.ok (decide (a = .noneType ∧
      b ∉ [ValueType.intType, ValueType.strType, ValueType.boolType])), ts')
  | (.error e, ts') => (.error e, ts')

/-- Python `x.className`: only class-reference values carry a class name in
the spec's value-type model; anything else raises `AttributeError`. -/
def className? : ValueType → Option String
  | .classRef n => some n
  | _ => none

/-- One of the `while self.classes[x].superclass is not None` loops of `join`:
starting from class name `x` it appends each superclass to `acc` and advances,
returning the grown list when the walk reaches a class with no superclass. -/
def ancestorWalk (fuel : Nat) (ts : TypeSystem) (x : String) (acc : List String) :
    Except PyErr (List String) × TypeSystem :=
  match fuel with
  | 0 => (.error .outOfFuel, ts)
  | fuel + 1 =>
    match subscript ts x with
    | (none, ts') => (.error .attributeError, ts')
    | (some info, ts') =>
      match info.superclass with
      | none => (.ok acc, ts')
      | some sup => ancestorWalk fuel ts' sup (acc ++ [sup])

/-- `join` may return a `ValueType`, a raw `ClassInfo` record (the value of
`self.classes[aAncestors[i - 1]]` in the divergence branch), or Python `None`
(when that subscript hits the defaultdict sentinel). -/
inductive JoinResult : Type where
  | vt (t : ValueType) : JoinResult
  | info (c : ClassInfo) : JoinResult
  | pyNone : JoinResult
deriving DecidableEq

/-- Python list indexing with negative-index wraparound, as `aAncestors[i - 1]`
needs at `i = 0`. -/
def pyIndex {α : Type} (l : List α) (i : Int) : Option α :=
  if i < 0 then l[(((l.length : Int) + i).toNat)]? else l[i.toNat]?

/-- One step budgeted run of the `for i in range(min(len(aAncestors),
len(bAncestors)))` loop of `join`: `remaining` counts the iterations left
(initially `min` of the lengths, so `i` ranges over exactly the Python
`range`); at the first position where the reversed lists disagree return
`self.classes[aAncestors[i - 1]]`. -/
def joinScanAux (ts : TypeSystem) (aAncestors bAncestors : List String) :
    Nat → Nat → Except PyErr JoinResult × TypeSystem
  | _, 0 => (.ok (.vt .objectType), ts)
  | i, remaining + 1 =>
    if aAncestors[i]? ≠ bAncestors[i]? then
      match pyIndex aAncestors ((i : Int) - 1) with
      | none => (.error .typeError, ts)
      | some key =>
        match subscript ts key with
        | (some ci, ts') => (.ok (.info ci), ts')
        | (none, ts') => (.ok .pyNone, ts')
    else joinScanAux ts aAncestors bAncestors (i + 1) remaining

/-- The divergence-scan loop of `join`; when the loop runs to completion (in
particular when it has zero iterations) the function falls through to
`return ObjectType()`. -/
def joinScan (ts : TypeSystem) (aAncestors bAncestors : List String) :
    Except PyErr JoinResult × TypeSystem :=
  joinScanAux ts aAncestors bAncestors 0 (min aAncestors.length bAncestors.length)

/-- `join(a, b)`: the two `canAssign` shortcuts, then the ancestor-chain
comparison.  The source's second `while` loop appends `b`'s ancestors onto
`aAncestors` (not `bAncestors`), so `bAncestors` stays `[]`; the embedding
reproduces this by passing the first walk's result as the accumulator of the
second walk and scanning against the empty `bAncestors`. -/
def join (fuel : Nat) (ts : TypeSystem) (a b : ValueType) :
    Except PyErr JoinResult × TypeSystem :=
  match canAssign fuel ts a b with
  | (.error e, ts') => (.error e, ts')
  | (.ok true, ts') => (.ok (.vt b), ts')
  | (.ok false, ts') =>
    match canAssign fuel ts' b a with
    | (.error e, ts'') => (.error e, ts'')
    | (.ok true, ts'') => (.ok (.vt a), ts'')
    | (.ok false, ts'') =>
      match className? a, className? b with
      | some an, some bn =>
        match ancestorWalk fuel ts'' an [] with
        | (.error e, ts₃) => (.error e, ts₃)
        | (.ok aAfterFirst, ts₃) =>
          match ancestorWalk fuel ts₃ bn aAfterFirst with
          | (.error e, ts₄) => (.error e, ts₄)
          | (.ok aAncestors, ts₄) =>
            joinScan ts₄ aAncestors.reverse (([] : List String).reverse)
      | _, _ => (.error .attributeError, ts'')

/-- The `for name in self.classes[className].methods` loop of `getAllMethods`:
each own method overwrites (or appends to) the inherited table via dict
assignment. -/
def insertOwnMethods (acc : List (String × ValueType × String)) (className : String) :
    List (String × ValueType) → List (String × ValueType × String)
  | [] => acc
  | (n, sig) :: rest => insertOwnMethods (dictInsert acc n (sig, className)) className rest

/-- `getAllMethods(className)`: start from the recursively computed table of
the superclass (empty at the root) and merge in this class's methods, each
tagged with `className`. -/
def getAllMethods (fuel : Nat) (ts : TypeSystem) (className : String) :
    Except PyErr (List (String × ValueType × String)) × TypeSystem :=
  match fuel with
  | 0 => (.error .outOfFuel, ts)
  | fuel + 1 =>
    match subscript ts className with
    | (none, ts') => (.error .attributeError, ts')
    | (some info, ts') =>
      match info.superclass with
      | none => (.ok (insertOwnMethods [] className info.methods), ts')
      | some sup =>
        match getAllMethods fuel ts' sup with
        | (.error e, ts'') => (.error e, ts'')
        | (.ok inherited, ts'') =>
          (.ok (insertOwnMethods inherited className info.methods), ts'')

/-- The `for attr in self.classes[className].orderedAttrs` loop of
`getOrderedAttrs`: each name is looked up in the attribute table and unpacked
into a `(name, type, init)` triple; unpacking the sentinel of a missing name
raises `TypeError`. -/
def ownAttrsLoop (info : ClassInfo) (acc : List (String × ValueType × Lit)) :
    List String → Except PyErr (List (String × ValueType × Lit))
  | [] => .ok acc
  | attrName :: rest =>
    match dictLookup attrName info.attrs with
    | none => .error .typeError
    | some (attrType, attrInit) =>
      ownAttrsLoop info (acc ++ [(attrName, attrType, attrInit)]) rest

/-- `getOrderedAttrs(className)`: the recursive call on the superclass is
still made, but its result is bound to the variable `attr`, which the `for`
loop immediately overwrites — only this class's own triples are appended to
the empty `attrs` list. -/
def getOrderedAttrs (fuel : Nat) (ts : TypeSystem) (className : String) :
    Except PyErr (List (String × ValueType × Lit)) × TypeSystem :=
  match fuel with
  | 0 => (.error .outOfFuel, ts)
  | fuel + 1 =>
    match subscript ts className with
    | (none, ts') => (.error .attributeError, ts')
    | (some info, ts') =>
      match info.superclass with
      | none => (ownAttrsLoop info [] info.orderedAttrs, ts')
      | some sup =>
        match getOrderedAttrs fuel ts' sup with
        | (.error e, ts'') => (.error e, ts'')
        | (.ok _, ts'') => (ownAttrsLoop info [] info.orderedAttrs, ts'')

/-- A built-in `ClassInfo` as `TypeSystem.__init__` creates it: the single
method `__init__ : (ObjectType) → NoneType`. -/
def builtinInfo (name : String) (sup : Option String) : ClassInfo :=
  { name := name
    superclass := sup
    attrs := []
    methods := [("__init__", .funcType [.objectType] .noneType)]
    orderedAttrs := [] }

/-- `TypeSystem.__init__`: the registry pre-populated with `object`, `int`,
`bool`, `str` (each with the `__init__` signature) and the two marker classes
`<None>` and `<Empty>` (no methods), in insertion order. -/
def initTypeSystem : TypeSystem :=
  ⟨[ ("object", some (builtinInfo "object" none))
   , ("int", some (builtinInfo "int" (some "object")))
   , ("bool", some (builtinInfo "bool" (some "object")))
   , ("str", some (builtinInfo "str" (some "object")))
   , ("<None>", some ⟨"<None>", some "object", [], [], []⟩)
   , ("<Empty>", some ⟨"<Empty>", some "object", [], [], []⟩)
   ]⟩

/-! ## Specification-side definitions

The definitions below are not translations of `typesystem.py` functions; they
spell out, in the words of the specification, the superclass chain
(`a, superclass(a), superclass(superclass(a)), …`) and the chain-lookup
("first class that declares the name") and root-to-leaf-merge semantics that
the spec attributes to the query operations.  The theorems compare the source
translations above against these. -/

/-- The superclass chain of a class as the spec words it: `a, superclass(a),
superclass(superclass(a)), …` up to a class with no superclass.  `none` when a
class on the chain is unregistered or the fuel (chain length bound) runs
out. -/
def superChain : Nat → TypeSystem → String → Option (List String)
  | 0, _, _ => none
  | fuel + 1, ts, name =>
    match dictLookup name ts.classes with
    | some (some info) =>
      match info.superclass with
      | none => some [name]
      | some sup =>
        match superChain fuel ts sup with
        | some l => some (name :: l)
        | none => none
    | _ => none

/-- The method table of a registered class (empty for an unregistered name or
a sentinel binding). -/
def methodsOf (ts : TypeSystem) (c : String) : List (String × ValueType) :=
  match dictLookup c ts.classes with
  | some (some info) => info.methods
  | _ => []

/-- The attribute table of a registered class. -/
def attrsOf (ts : TypeSystem) (c : String) : List (String × ValueType × Lit) :=
  match dictLookup c ts.classes with
  | some (some info) => info.attrs
  | _ => []

/-- The declaration-order attribute list of a registered class. -/
def orderedAttrsOf (ts : TypeSystem) (c : String) : List String :=
  match dictLookup c ts.classes with
  | some (some info) => info.orderedAttrs
  | _ => []

/-- Spec-side resolution of a method along a chain: the signature and name of
the first (closest) class in the chain whose method table declares `n`. -/
def firstMethodHit (ts : TypeSystem) (n : String) : List String → Option (ValueType × String)
  | [] => none
  | c :: rest =>
    match dictLookup n (methodsOf ts c) with
    | some sig => some (sig, c)
    | none => firstMethodHit ts n rest

/-- Spec-side resolution of an attribute along a chain: the `(type, init)`
pair stored by the first class in the chain that declares `n`. -/
def firstAttrHit (ts : TypeSystem) (n : String) : List String → Option (ValueType × Lit)
  | [] => none
  | c :: rest =>
    match dictLookup n (attrsOf ts c) with
    | some tv => some tv
    | none => firstAttrHit ts n rest

/-- Spec-side combined member resolution along a chain: at each class methods
are consulted first, then attributes (type component), before ascending. -/
def firstMemberHit (ts : TypeSystem) (n : String) : List String → Option ValueType
  | [] => none
  | c :: rest =>
    match dictLookup n (methodsOf ts c) with
    | some sig => some sig
    | none =>
      match dictLookup n (attrsOf ts c) with
      | some (t, _) => some t
      | none => firstMemberHit ts n rest

/-- Spec-side root-to-leaf merge of the method tables along a chain (leaf
first in the list): merge the tables from the root down, each entry tagged
with its defining class, subclass entries replacing ancestor entries. -/
def mergeChainMethods (ts : TypeSystem) : List String → List (String × ValueType × String)
  | [] => []
  | c :: rest => insertOwnMethods (mergeChainMethods ts rest) c (methodsOf ts c)

/-- View an optional `(signature, definingClass)` hit as the `(None, None)` /
`(sig, cls)` pair convention of `getMethodHelper`. -/
def optPair {α β : Type} : Option (α × β) → Option α × Option β
  | none => (none, none)
  | some (x, y) => (some x, some y)

/-! ## Concrete registries used as witnesses -/

/-- The registry `object → A → B`, `object → A → C` (`B`, `C` siblings under
`A`), with no attributes or methods on the user classes. -/
def tsBC : TypeSystem :=
  ⟨initTypeSystem.classes ++
    [ ("A", some ⟨"A", some "object", [], [], []⟩)
    , ("B", some ⟨"B", some "A", [], [], []⟩)
    , ("C", some ⟨"C", some "A", [], [], []⟩) ]⟩

/-- The registry `object → P → D` where `P` declares attribute `y : int = 0`
and `D` declares attribute `x : bool = True`. -/
def tsPD : TypeSystem :=
  ⟨initTypeSystem.classes ++
    [ ("P", some ⟨"P", some "object", [("y", .intType, .intLit 0)], [], ["y"]⟩)
    , ("D", some ⟨"D", some "P", [("x", .boolType, .boolLit true)], [], ["x"]⟩) ]⟩

/-! ## Basic lemmas about dict lookup, subscripting and the superclass chain -/

theorem dictLookup_append_self {α : Type} {l : List (String × α)} {k : String}
    (h : dictLookup k l = none) (v : α) :
    dictLookup k (l ++ [(k, v)]) = some v := by
  induction l with
  | nil => simp [dictLookup]
  | cons kv rest ih =>
    by_cases hk : kv.1 = k
    · simp [dictLookup, hk] at h
    · simp only [dictLookup, hk, if_false, List.cons_append] at h ⊢
      exact ih h

theorem subscript_hit {ts : TypeSystem} {k : String} {v : Option ClassInfo}
    (h : dictLookup k ts.classes = some v) : subscript ts k = (v, ts) := by
  simp [subscript, h]

theorem subscript_miss {ts : TypeSystem} {k : String}
    (h : dictLookup k ts.classes = none) :
    subscript ts k = (none, ⟨ts.classes ++ [(k, none)]⟩) := by
  simp [subscript, h]

theorem superChain_root {fuel : Nat} {ts : TypeSystem} {a : String} {info : ClassInfo}
    (hl : dictLookup a ts.classes = some (some info)) (hs : info.superclass = none) :
    superChain (fuel + 1) ts a = some [a] := by
  simp [superChain, hl, hs]

theorem superChain_step {fuel : Nat} {ts : TypeSystem} {a sup : String} {info : ClassInfo}
    {l' : List String}
    (hl : dictLookup a ts.classes = some (some info)) (hs : info.superclass = some sup)
    (hc : superChain fuel ts sup = some l') :
    superChain (fuel + 1) ts a = some (a :: l') := by
  simp [superChain, hl, hs, hc]

theorem superChain_succ {fuel : Nat} {ts : TypeSystem} {a : String} {la : List String}
    (h : superChain (fuel + 1) ts a = some la) :
    ∃ info, dictLookup a ts.classes = some (some info) ∧
      ((info.superclass = none ∧ la = [a]) ∨
        (∃ sup l', info.superclass = some sup ∧ superChain fuel ts sup = some l' ∧
          la = a :: l')) := by
  simp only [superChain] at h
  cases hl : dictLookup a ts.classes with
  | none => simp [hl] at h
  | some oc =>
    cases oc with
    | none => simp [hl] at h
    | some info =>
      simp only [hl] at h
      refine ⟨info, rfl, ?_⟩
      cases hs : info.superclass with
      | none =>
        simp only [hs, Option.some.injEq] at h
        exact Or.inl ⟨rfl, h.symm⟩
      | some sup =>
        simp only [hs] at h
        cases hc : superChain fuel ts sup with
        | none => simp [hc] at h
        | some l' =>
          simp only [hc, Option.some.injEq] at h
          exact Or.inr ⟨sup, l', rfl, hc, h.symm⟩

theorem superChain_mono : ∀ {fuel fuel' : Nat} {ts : TypeSystem} {a : String}
    {la : List String}, fuel ≤ fuel' → superChain fuel ts a = some la →
    superChain fuel' ts a = some la := by
  intro fuel
  induction fuel with
  | zero => intro fuel' ts a la _ h; simp [superChain] at h
  | succ f ih =>
    intro fuel' ts a la hle h
    obtain ⟨f', rfl⟩ : ∃ f', fuel' = f' + 1 :=
      ⟨fuel' - 1, by omega⟩
    obtain ⟨info, hl, hcase⟩ := superChain_succ h
    rcases hcase with ⟨hs, rfl⟩ | ⟨sup, l', hs, hc, rfl⟩
    · exact superChain_root hl hs
    · exact superChain_step hl hs (ih (by omega) hc)

theorem superChain_head : ∀ {fuel : Nat} {ts : TypeSystem} {a : String}
    {la : List String}, superChain fuel ts a = some la → ∃ l', la = a :: l' := by
  intro fuel ts a la h
  cases fuel with
  | zero => simp [superChain] at h
  | succ f =>
    obtain ⟨info, _, hcase⟩ := superChain_succ h
    rcases hcase with ⟨_, rfl⟩ | ⟨sup, l', _, _, rfl⟩
    · exact ⟨[], rfl⟩
    · exact ⟨l', rfl⟩

theorem superChain_self_mem {fuel : Nat} {ts : TypeSystem} {a : String}
    {la : List String} (h : superChain fuel ts a = some la) : a ∈ la := by
  obtain ⟨l', rfl⟩ := superChain_head h
  exact List.mem_cons_self a l'

theorem superChain_shrink : ∀ {fuel : Nat} {ts : TypeSystem} {a : String}
    {la : List String}, superChain fuel ts a = some la →
    superChain la.length ts a = some la := by
  intro fuel
  induction fuel with
  | zero => intro ts a la h; simp [superChain] at h
  | succ f ih =>
    intro ts a la h
    obtain ⟨info, hl, hcase⟩ := superChain_succ h
    rcases hcase with ⟨hs, rfl⟩ | ⟨sup, l', hs, hc, rfl⟩
    · exact superChain_root hl hs
    · simpa [List.length_cons] using superChain_step hl hs (ih hc)

theorem superChain_suffix : ∀ {fuel : Nat} {ts : TypeSystem} {a b : String}
    {la : List String}, superChain fuel ts a = some la → b ∈ la →
    ∃ lb, superChain fuel ts b = some lb ∧ lb <:+ la := by
  intro fuel
  induction fuel with
  | zero => intro ts a b la h _; simp [superChain] at h
  | succ f ih =>
    intro ts a b la h hb
    obtain ⟨info, hl, hcase⟩ := superChain_succ h
    rcases hcase with ⟨hs, rfl⟩ | ⟨sup, l', hs, hc, rfl⟩
    · have hba : b = a := by simpa using hb
      subst hba
      exact ⟨[b], superChain_root hl hs, List.suffix_rfl⟩
    · rcases List.mem_cons.mp hb with hba | hbl
      · subst hba
        exact ⟨b :: l', h, List.suffix_rfl⟩
      · obtain ⟨lb, hlb, hsuf⟩ := ih hc hbl
        exact ⟨lb, superChain_mono (Nat.le_succ f) hlb,
          hsuf.trans (List.suffix_cons a l')⟩

/-! ## Characterization of the chain-walking queries on well-formed chains -/

theorem isSubClass_char : ∀ {fuel : Nat} {ts : TypeSystem} {a : String}
    {la : List String}, superChain fuel ts a = some la → ∀ b : String,
    isSubClass fuel ts a b = (.ok (decide (b ∈ la)), ts) := by
  intro fuel
  induction fuel with
  | zero => intro ts a la h b; simp [superChain] at h
  | succ f ih =>
    intro ts a la h b
    obtain ⟨info, hl, hcase⟩ := superChain_succ h
    by_cases hab : a = b
    · subst hab
      have hmem : a ∈ la := superChain_self_mem h
      simp [isSubClass, hmem]
    · have hne : b ≠ a := fun hba => hab hba.symm
      rcases hcase with ⟨hs, rfl⟩ | ⟨sup, l', hs, hc, rfl⟩
      · simp [isSubClass, hab, subscript_hit hl, hs, hne]
      · have hmem : (b ∈ a :: l') ↔ b ∈ l' := by simp [List.mem_cons, hne]
        calc isSubClass (f + 1) ts a b = isSubClass f ts sup b := by
              simp [isSubClass, hab, subscript_hit hl, hs]
          _ = (.ok (decide (b ∈ l')), ts) := ih hc b
          _ = (.ok (decide (b ∈ a :: l')), ts) := by
              rw [decide_eq_decide.mpr hmem.symm]

theorem getMethodHelper_char : ∀ {fuel : Nat} {ts : TypeSystem} {c : String}
    {la : List String}, superChain fuel ts c = some la → ∀ n : String,
    getMethodHelper fuel ts c n = (.ok (optPair (firstMethodHit ts n la)), ts) := by
  intro fuel
  induction fuel with
  | zero => intro ts c la h n; simp [superChain] at h
  | succ f ih =>
    intro ts c la h n
    obtain ⟨info, hl, hcase⟩ := superChain_succ h
    have hm : methodsOf ts c = info.methods := by simp [methodsOf, hl]
    rcases hcase with ⟨hs, rfl⟩ | ⟨sup, l', hs, hc, rfl⟩
    · cases hfind : dictLookup n info.methods with
      | some sig =>
        simp [getMethodHelper, subscript_hit hl, hfind, firstMethodHit, hm, optPair]
      | none =>
        simp [getMethodHelper, subscript_hit hl, hfind, hs, firstMethodHit, hm, optPair]
    · cases hfind : dictLookup n info.methods with
      | some sig =>
        simp [getMethodHelper, subscript_hit hl, hfind, firstMethodHit, hm, optPair]
      | none =>
        rw [show getMethodHelper (f + 1) ts c n = getMethodHelper f ts sup n from by
          simp [getMethodHelper, subscript_hit hl, hfind, hs]]
        rw [ih hc n]
        simp [firstMethodHit, hm, hfind]

theorem getAttrHelper_char : ∀ {fuel : Nat} {ts : TypeSystem} {c : String}
    {la : List String}, superChain fuel ts c = some la → ∀ n : String,
    getAttrHelper fuel ts c n = (.ok (optPair (firstAttrHit ts n la)), ts) := by
  intro fuel
  induction fuel with
  | zero => intro ts c la h n; simp [superChain] at h
  | succ f ih =>
    intro ts c la h n
    obtain ⟨info, hl, hcase⟩ := superChain_succ h
    have hm : attrsOf ts c = info.attrs := by simp [attrsOf, hl]
    rcases hcase with ⟨hs, rfl⟩ | ⟨sup, l', hs, hc, rfl⟩
    · cases hfind : dictLookup n info.attrs with
      | some tv =>
        simp [getAttrHelper, subscript_hit hl, hfind, firstAttrHit, hm, optPair]
      | none =>
        simp [getAttrHelper, subscript_hit hl, hfind, hs, firstAttrHit, hm, optPair]
    · cases hfind : dictLookup n info.attrs with
      | some tv =>
        simp [getAttrHelper, subscript_hit hl, hfind, firstAttrHit, hm, optPair]
      | none =>
        rw [show getAttrHelper (f + 1) ts c n = getAttrHelper f ts sup n from by
          simp [getAttrHelper, subscript_hit hl, hfind, hs]]
        rw [ih hc n]
        simp [firstAttrHit, hm, hfind]

theorem getAttrOrMethod_char : ∀ {fuel : Nat} {ts : TypeSystem} {c : String}
    {la : List String}, superChain fuel ts c = some la → ∀ n : String,
    getAttrOrMethod fuel ts c n = (.ok (firstMemberHit ts n la), ts) := by
  intro fuel
  induction fuel with
  | zero => intro ts c la h n; simp [superChain] at h
  | succ f ih =>
    intro ts c la h n
    obtain ⟨info, hl, hcase⟩ := superChain_succ h
    have hm : methodsOf ts c = info.methods := by simp [methodsOf, hl]
    have ha : attrsOf ts c = info.attrs := by simp [attrsOf, hl]
    rcases hcase with ⟨hs, rfl⟩ | ⟨sup, l', hs, hc, rfl⟩
    · cases hfm : dictLookup n info.methods with
      | some sig =>
        simp [getAttrOrMethod, subscript_hit hl, hfm, firstMemberHit, hm]
      | none =>
        cases hfa : dictLookup n info.attrs with
        | some tv =>
          simp [getAttrOrMethod, subscript_hit hl, hfm, hfa, firstMemberHit, hm, ha]
        | none =>
          simp [getAttrOrMethod, subscript_hit hl, hfm, hfa, hs, firstMemberHit, hm, ha]
    · cases hfm : dictLookup n info.methods with
      | some sig =>
        simp [getAttrOrMethod, subscript_hit hl, hfm, firstMemberHit, hm]
      | none =>
        cases hfa : dictLookup n info.attrs with
        | some tv =>
          simp [getAttrOrMethod, subscript_hit hl, hfm, hfa, firstMemberHit, hm, ha]
        | none =>
          rw [show getAttrOrMethod (f + 1) ts c n = getAttrOrMethod f ts sup n from by
            simp [getAttrOrMethod, subscript_hit hl, hfm, hfa, hs]]
          rw [ih hc n]
          simp [firstMemberHit, hm, ha, hfm, hfa]

theorem ancestorWalk_char : ∀ {fuel : Nat} {ts : TypeSystem} {x : String}
    {l : List String}, superChain fuel ts x = some l → ∀ acc : List String,
    ancestorWalk fuel ts x acc = (.ok (acc ++ l.tail), ts) := by
  intro fuel
  induction fuel with
  | zero => intro ts x l h acc; simp [superChain] at h
  | succ f ih =>
    intro ts x l h acc
    obtain ⟨info, hl, hcase⟩ := superChain_succ h
    rcases hcase with ⟨hs, rfl⟩ | ⟨sup, l', hs, hc, rfl⟩
    · simp [ancestorWalk, subscript_hit hl, hs]
    · obtain ⟨l'', rfl⟩ := superChain_head hc
      rw [show ancestorWalk (f + 1) ts x acc
            = ancestorWalk f ts sup (acc ++ [sup]) from by
          simp [ancestorWalk, subscript_hit hl, hs]]
      rw [ih hc (acc ++ [sup])]
      simp

theorem getMethod_char {fuel : Nat} {ts : TypeSystem} {c : String} {la : List String}
    (h : superChain fuel ts c = some la) (n : String) :
    getMethod fuel ts c n = (.ok ((firstMethodHit ts n la).map Prod.fst), ts) := by
  cases hfm : firstMethodHit ts n la with
  | none => simp [getMethod, getMethodHelper_char h n, hfm, optPair]
  | some p =>
    obtain ⟨sig, d⟩ := p
    simp [getMethod, getMethodHelper_char h n, hfm, optPair]

theorem getMethodDefClass_char {fuel : Nat} {ts : TypeSystem} {c : String}
    {la : List String} (h : superChain fuel ts c = some la) (n : String) :
    getMethodDefClass fuel ts c n = (.ok ((firstMethodHit ts n la).map Prod.snd), ts) := by
  cases hfm : firstMethodHit ts n la with
  | none => simp [getMethodDefClass, getMethodHelper_char h n, hfm, optPair]
  | some p =>
    obtain ⟨sig, d⟩ := p
    simp [getMethodDefClass, getMethodHelper_char h n, hfm, optPair]

theorem getAttr_char {fuel : Nat} {ts : TypeSystem} {c : String} {la : List String}
    (h : superChain fuel ts c = some la) (n : String) :
    getAttr fuel ts c n = (.ok ((firstAttrHit ts n la).map Prod.fst), ts) := by
  cases hfa : firstAttrHit ts n la with
  | none => simp [getAttr, getAttrHelper_char h n, hfa, optPair]
  | some p =>
    obtain ⟨t, v⟩ := p
    simp [getAttr, getAttrHelper_char h n, hfa, optPair]

theorem getAttrInit_char {fuel : Nat} {ts : TypeSystem} {c : String} {la : List String}
    (h : superChain fuel ts c = some la) (n : String) :
    getAttrInit fuel ts c n = (.ok ((firstAttrHit ts n la).map Prod.snd), ts) := by
  cases hfa : firstAttrHit ts n la with
  | none => simp [getAttrInit, getAttrHelper_char h n, hfa, optPair]
  | some p =>
    obtain ⟨t, v⟩ := p
    simp [getAttrInit, getAttrHelper_char h n, hfa, optPair]

theorem canAssign_classRef_char {fuel : Nat} {ts : TypeSystem} {an : String}
    {la : List String} (h : superChain fuel ts an = some la) (bn : String) :
    canAssign fuel ts (.classRef an) (.classRef bn) = (.ok (decide (bn ∈ la)), ts) := by
  by_cases hmem : bn ∈ la <;>
    simp [canAssign, isSubtype, isSubClass_char h bn, hmem]

theorem join_classRef_char {fuel : Nat} {ts : TypeSystem} {an bn : String}
    {la lb : List String} (ha : superChain fuel ts an = some la)
    (hb : superChain fuel ts bn = some lb) :
    join fuel ts (.classRef an) (.classRef bn) =
      if bn ∈ la then (.ok (.vt (.classRef bn)), ts)
      else if an ∈ lb then (.ok (.vt (.classRef an)), ts)
      else (.ok (.vt .objectType), ts) := by
  by_cases h1 : bn ∈ la
  · simp [join, canAssign_classRef_char ha bn, h1]
  · by_cases h2 : an ∈ lb
    · simp [join, canAssign_classRef_char ha bn, canAssign_classRef_char hb an, h1, h2]
    · have hwa := ancestorWalk_char ha []
      have hwb := ancestorWalk_char hb la.tail
      simp [join, canAssign_classRef_char ha bn, canAssign_classRef_char hb an, h1, h2,
        className?, hwa, hwb, joinScan, joinScanAux]

/-! ## Dict-merge lemmas for `getAllMethods` -/

theorem dictLookup_eq_none_of_not_mem_keys {α : Type} {m : List (String × α)}
    {k : String} (h : k ∉ m.map Prod.fst) : dictLookup k m = none := by
  induction m with
  | nil => rfl
  | cons kv rest ih =>
    simp only [List.map_cons, List.mem_cons] at h
    push_neg at h
    simp [dictLookup, Ne.symm h.1, ih h.2]

theorem dictLookup_dictInsert_self {α : Type} (m : List (String × α)) (k : String)
    (v : α) : dictLookup k (dictInsert m k v) = some v := by
  induction m with
  | nil => simp [dictInsert, dictLookup]
  | cons kv rest ih =>
    by_cases hk : kv.1 = k
    · simp [dictInsert, hk, dictLookup]
    · simp [dictInsert, hk, dictLookup, ih]

theorem dictLookup_dictInsert_ne {α : Type} (m : List (String × α)) (k : String)
    (v : α) (n : String) (h : n ≠ k) :
    dictLookup n (dictInsert m k v) = dictLookup n m := by
  induction m with
  | nil => simp [dictInsert, dictLookup, Ne.symm h]
  | cons kv rest ih =>
    by_cases hk : kv.1 = k
    · simp [dictInsert, hk, dictLookup, Ne.symm h]
    · simp [dictInsert, hk, dictLookup, ih]

theorem mem_keys_dictInsert {α : Type} {m : List (String × α)} {k n : String}
    {v : α} (h : n ∈ (dictInsert m k v).map Prod.fst) :
    n = k ∨ n ∈ m.map Prod.fst := by
  induction m with
  | nil => simpa [dictInsert] using h
  | cons kv rest ih =>
    by_cases hk : kv.1 = k
    · simp only [dictInsert, hk, if_true, List.map_cons, List.mem_cons] at h
      rcases h with rfl | hm
      · exact Or.inl rfl
      · exact Or.inr (by simp [hm])
    · simp only [dictInsert, hk, if_false, List.map_cons, List.mem_cons] at h
      rcases h with rfl | hm
      · exact Or.inr (by simp)
      · rcases ih hm with rfl | hm'
        · exact Or.inl rfl
        · exact Or.inr (by simp [hm'])

theorem dictInsert_keys_nodup {α : Type} {m : List (String × α)} {k : String}
    {v : α} (h : (m.map Prod.fst).Nodup) :
    ((dictInsert m k v).map Prod.fst).Nodup := by
  induction m with
  | nil => simp [dictInsert]
  | cons kv rest ih =>
    simp only [List.map_cons, List.nodup_cons] at h
    by_cases hk : kv.1 = k
    · simp only [dictInsert, hk, if_true, List.map_cons, List.nodup_cons]
      exact ⟨hk ▸ h.1, h.2⟩
    · simp only [dictInsert, hk, if_false, List.map_cons, List.nodup_cons]
      refine ⟨fun hmem => ?_, ih h.2⟩
      rcases mem_keys_dictInsert hmem with rfl | hm
      · exact hk rfl
      · exact h.1 hm

theorem insertOwnMethods_lookup : ∀ {ms : List (String × ValueType)}
    {acc : List (String × ValueType × String)} {c n : String},
    (ms.map Prod.fst).Nodup →
    dictLookup n (insertOwnMethods acc c ms) =
      (match dictLookup n ms with
        | some sig => some (sig, c)
        | none => dictLookup n acc) := by
  intro ms
  induction ms with
  | nil => intro acc c n _; simp [insertOwnMethods, dictLookup]
  | cons kv rest ih =>
    intro acc c n hnd
    obtain ⟨k, v⟩ := kv
    simp only [List.map_cons, List.nodup_cons] at hnd
    rw [show insertOwnMethods acc c ((k, v) :: rest)
          = insertOwnMethods (dictInsert acc k (v, c)) c rest from rfl]
    rw [ih hnd.2]
    by_cases hkn : k = n
    · subst hkn
      have hnone : dictLookup k rest = none :=
        dictLookup_eq_none_of_not_mem_keys hnd.1
      simp [hnone, dictLookup, dictLookup_dictInsert_self]
    · cases hrest : dictLookup n rest with
      | none =>
        simp [dictLookup, hkn, hrest,
          dictLookup_dictInsert_ne acc k (v, c) n (fun hh => hkn hh.symm)]
      | some sig => simp [dictLookup, hkn, hrest]

theorem insertOwnMethods_nodup : ∀ {ms : List (String × ValueType)}
    {acc : List (String × ValueType × String)} {c : String},
    (acc.map Prod.fst).Nodup →
    ((insertOwnMethods acc c ms).map Prod.fst).Nodup := by
  intro ms
  induction ms with
  | nil => intro acc c h; exact h
  | cons kv rest ih =>
    intro acc c h
    obtain ⟨k, v⟩ := kv
    exact ih (dictInsert_keys_nodup h)

theorem mergeChainMethods_nodup (ts : TypeSystem) :
    ∀ la : List String, ((mergeChainMethods ts la).map Prod.fst).Nodup := by
  intro la
  induction la with
  | nil => simp [mergeChainMethods]
  | cons c rest ih => exact insertOwnMethods_nodup ih

theorem mergeChainMethods_lookup (ts : TypeSystem) (n : String) :
    ∀ la : List String, (∀ d ∈ la, ((methodsOf ts d).map Prod.fst).Nodup) →
    dictLookup n (mergeChainMethods ts la) = firstMethodHit ts n la := by
  intro la
  induction la with
  | nil => intro _; simp [mergeChainMethods, firstMethodHit, dictLookup]
  | cons c rest ih =>
    intro h
    rw [show mergeChainMethods ts (c :: rest)
          = insertOwnMethods (mergeChainMethods ts rest) c (methodsOf ts c) from rfl]
    rw [insertOwnMethods_lookup (h c (List.mem_cons_self c rest))]
    rw [ih (fun d hd => h d (List.mem_cons_of_mem c hd))]
    cases hfind : dictLookup n (methodsOf ts c) <;> simp [firstMethodHit, hfind]

theorem getAllMethods_char : ∀ {fuel : Nat} {ts : TypeSystem} {c : String}
    {la : List String}, superChain fuel ts c = some la →
    getAllMethods fuel ts c = (.ok (mergeChainMethods ts la), ts) := by
  intro fuel
  induction fuel with
  | zero => intro ts c la h; simp [superChain] at h
  | succ f ih =>
    intro ts c la h
    obtain ⟨info, hl, hcase⟩ := superChain_succ h
    have hm : methodsOf ts c = info.methods := by simp [methodsOf, hl]
    rcases hcase with ⟨hs, rfl⟩ | ⟨sup, l', hs, hc, rfl⟩
    · simp [getAllMethods, subscript_hit hl, hs, mergeChainMethods, hm]
    · simp [getAllMethods, subscript_hit hl, hs, ih hc, mergeChainMethods, hm]

/-! ## Termination of `getOrderedAttrs` on covered attribute lists -/

theorem ownAttrsLoop_ok : ∀ {names : List String} {info : ClassInfo},
    (∀ n ∈ names, (dictLookup n info.attrs).isSome) →
    ∀ acc, ∃ r, ownAttrsLoop info acc names = .ok r := by
  intro names
  induction names with
  | nil => intro info _ acc; exact ⟨acc, rfl⟩
  | cons n rest ih =>
    intro info h acc
    obtain ⟨tv, htv⟩ := Option.isSome_iff_exists.mp (h n (List.mem_cons_self n rest))
    obtain ⟨t, v⟩ := tv
    obtain ⟨r, hr⟩ := ih (fun m hm => h m (List.mem_cons_of_mem n hm)) (acc ++ [(n, t, v)])
    exact ⟨r, by simp [ownAttrsLoop, htv, hr]⟩

theorem getOrderedAttrs_ok : ∀ {fuel : Nat} {ts : TypeSystem} {c : String}
    {la : List String}, superChain fuel ts c = some la →
    (∀ d ∈ la, ∀ n ∈ orderedAttrsOf ts d, (dictLookup n (attrsOf ts d)).isSome) →
    ∃ r, getOrderedAttrs fuel ts c = (.ok r, ts) := by
  intro fuel
  induction fuel with
  | zero => intro ts c la h _; simp [superChain] at h
  | succ f ih =>
    intro ts c la h hcov
    obtain ⟨info, hl, hcase⟩ := superChain_succ h
    have hm : attrsOf ts c = info.attrs := by simp [attrsOf, hl]
    have ho : orderedAttrsOf ts c = info.orderedAttrs := by simp [orderedAttrsOf, hl]
    rcases hcase with ⟨hs, rfl⟩ | ⟨sup, l', hs, hc, rfl⟩
    · have hcv : ∀ n ∈ info.orderedAttrs, (dictLookup n info.attrs).isSome := by
        intro n hn
        have := hcov c (List.mem_cons_self c []) n (ho ▸ hn)
        rwa [hm] at this
      obtain ⟨r, hr⟩ := ownAttrsLoop_ok hcv []
      exact ⟨r, by simp [getOrderedAttrs, subscript_hit hl, hs, hr]⟩
    · obtain ⟨r', hr'⟩ := ih hc
        (fun d hd m hm' => hcov d (List.mem_cons_of_mem c hd) m hm')
      have hcv : ∀ n ∈ info.orderedAttrs, (dictLookup n info.attrs).isSome := by
        intro n hn
        have := hcov c (List.mem_cons_self c l') n (ho ▸ hn)
        rwa [hm] at this
      obtain ⟨r, hr⟩ := ownAttrsLoop_ok hcv []
      exact ⟨r, by simp [getOrderedAttrs, subscript_hit hl, hs, hr', hr]⟩

/-! ## First-hit resolution lemmas -/

theorem firstMethodHit_none {ts : TypeSystem} {n : String} : ∀ {l : List String},
    (∀ d ∈ l, dictLookup n (methodsOf ts d) = none) → firstMethodHit ts n l = none := by
  intro l
  induction l with
  | nil => intro _; rfl
  | cons c rest ih =>
    intro h
    simp [firstMethodHit, h c (List.mem_cons_self c rest),
      ih (fun d hd => h d (List.mem_cons_of_mem c hd))]

theorem firstAttrHit_none {ts : TypeSystem} {n : String} : ∀ {l : List String},
    (∀ d ∈ l, dictLookup n (attrsOf ts d) = none) → firstAttrHit ts n l = none := by
  intro l
  induction l with
  | nil => intro _; rfl
  | cons c rest ih =>
    intro h
    simp [firstAttrHit, h c (List.mem_cons_self c rest),
      ih (fun d hd => h d (List.mem_cons_of_mem c hd))]

theorem firstMemberHit_none {ts : TypeSystem} {n : String} : ∀ {l : List String},
    (∀ d ∈ l, dictLookup n (methodsOf ts d) = none ∧
      dictLookup n (attrsOf ts d) = none) → firstMemberHit ts n l = none := by
  intro l
  induction l with
  | nil => intro _; rfl
  | cons c rest ih =>
    intro h
    simp [firstMemberHit, (h c (List.mem_cons_self c rest)).1,
      (h c (List.mem_cons_self c rest)).2,
      ih (fun d hd => h d (List.mem_cons_of_mem c hd))]

theorem firstMethodHit_split {ts : TypeSystem} {n : String} :
    ∀ (l₁ : List String) {d : String} (l₂ : List String) {sig : ValueType},
    (∀ e ∈ l₁, dictLookup n (methodsOf ts e) = none) →
    dictLookup n (methodsOf ts d) = some sig →
    firstMethodHit ts n (l₁ ++ d :: l₂) = some (sig, d) := by
  intro l₁
  induction l₁ with
  | nil => intro d l₂ sig _ hd; simp [firstMethodHit, hd]
  | cons e rest ih =>
    intro d l₂ sig h hd
    simp only [List.cons_append, firstMethodHit, h e (List.mem_cons_self e rest)]
    exact ih l₂ (fun x hx => h x (List.mem_cons_of_mem e hx)) hd

theorem firstAttrHit_split {ts : TypeSystem} {n : String} :
    ∀ (l₁ : List String) {d : String} (l₂ : List String) {tv : ValueType × Lit},
    (∀ e ∈ l₁, dictLookup n (attrsOf ts e) = none) →
    dictLookup n (attrsOf ts d) = some tv →
    firstAttrHit ts n (l₁ ++ d :: l₂) = some tv := by
  intro l₁
  induction l₁ with
  | nil => intro d l₂ tv _ hd; simp [firstAttrHit, hd]
  | cons e rest ih =>
    intro d l₂ tv h hd
    simp only [List.cons_append, firstAttrHit, h e (List.mem_cons_self e rest)]
    exact ih l₂ (fun x hx => h x (List.mem_cons_of_mem e hx)) hd

/-! ## Claim theorems -/

/-- C1: on the registry `object → A → B`, `object → A → C` (B, C siblings
under A), the source `join` applied to `ClassRef "B"` and `ClassRef "C"`
returns `ObjectType()` and not the lowest common ancestor `ClassRef "A"`
required by the claim: the second ancestor `while` loop appends into
`aAncestors`, so the position-by-position comparison never executes. -/
theorem join_siblings_eval :
    join 10 tsBC (.classRef "B") (.classRef "C") = (.ok (.vt .objectType), tsBC) ∧
    (join 10 tsBC (.classRef "B") (.classRef "C")).1 ≠
      .ok (.vt (.classRef "A")) := by
  decide

/-- C2: on the registry `object → P → D` with `P` declaring attribute `y` and
`D` declaring attribute `x`, the source `getOrderedAttrs "D"` yields only
`[x]` — the recursive result for the superclass is bound to the variable
`attr` and discarded — and not the `[y, x]` (inherited first) required by the
claim. -/
theorem getOrderedAttrs_drops_inherited_eval :
    getOrderedAttrs 10 tsPD "D" = (.ok [("x", .boolType, .boolLit true)], tsPD) ∧
    (getOrderedAttrs 10 tsPD "D").1 ≠
      .ok [("y", .intType, .intLit 0), ("x", .boolType, .boolLit true)] := by
  decide

/-- C3: on a well-formed superclass chain, `isSubClass a b` returns true iff
`b` occurs in the chain `a, superclass(a), …`; hence the relation is
reflexive, reaches `"object"` whenever the chain is rooted there, and is
transitive. -/
theorem isSubClass_chain_spec (fuel : Nat) (ts : TypeSystem) (a : String)
    (la : List String) (hchain : superChain fuel ts a = some la) :
    (∀ b, isSubClass fuel ts a b = (.ok (decide (b ∈ la)), ts)) ∧
    isSubClass fuel ts a a = (.ok true, ts) ∧
    ("object" ∈ la → isSubClass fuel ts a "object" = (.ok true, ts)) ∧
    (∀ b c, (isSubClass fuel ts a b).1 = .ok true →
      (isSubClass fuel ts b c).1 = .ok true →
      (isSubClass fuel ts a c).1 = .ok true) := by
  refine ⟨isSubClass_char hchain, ?_, ?_, ?_⟩
  · rw [isSubClass_char hchain a]
    simp [superChain_self_mem hchain]
  · intro hobj
    rw [isSubClass_char hchain "object"]
    simp [hobj]
  · intro b c hab hbc
    rw [isSubClass_char hchain b] at hab
    simp only [Except.ok.injEq, decide_eq_true_eq] at hab
    obtain ⟨lb, hlb, hsuf⟩ := superChain_suffix hchain hab
    rw [isSubClass_char hlb c] at hbc
    simp only [Except.ok.injEq, decide_eq_true_eq] at hbc
    rw [isSubClass_char hchain c]
    simp [hsuf.subset hbc]

theorem isSubClass_chain_spec_witness :
    isSubClass 3 tsBC "B" "A" = (.ok true, tsBC) ∧
    isSubClass 3 tsBC "B" "B" = (.ok true, tsBC) ∧
    isSubClass 3 tsBC "B" "object" = (.ok true, tsBC) := by
  have h := isSubClass_chain_spec 3 tsBC "B" ["B", "A", "object"] (by decide)
  refine ⟨?_, h.2.1, h.2.2.1 (by decide)⟩
  have hA := h.1 "A"
  rwa [show decide (("A" : String) ∈ ["B", "A", "object"]) = true from by decide] at hA

/-- C4: `isSubtype` is universally true when the right-hand type is `Object`;
on two class-reference types it equals `isSubClass` of the two class names;
in every other combination it is equality of variants (no primitive
widening). -/
theorem isSubtype_cases (fuel : Nat) (ts : TypeSystem) (a b : ValueType) :
    (b = .objectType → isSubtype fuel ts a b = (.ok true, ts)) ∧
    (∀ an bn, a = .classRef an → b = .classRef bn →
      isSubtype fuel ts a b = isSubClass fuel ts an bn) ∧
    (b ≠ .objectType → (∀ an bn, ¬(a = .classRef an ∧ b = .classRef bn)) →
      isSubtype fuel ts a b = (.ok (decide (a = b)), ts)) := by
  refine ⟨?_, ?_, ?_⟩
  · rintro rfl; simp [isSubtype]
  · rintro an bn rfl rfl; simp [isSubtype]
  · intro hb hno
    cases a <;> cases b <;> simp_all [isSubtype]

theorem isSubtype_cases_witness :
    isSubtype 1 initTypeSystem .intType .objectType = (.ok true, initTypeSystem) ∧
    isSubtype 1 initTypeSystem (.classRef "int") (.classRef "bool") =
      isSubClass 1 initTypeSystem "int" "bool" ∧
    isSubtype 1 initTypeSystem .intType .boolType =
      (.ok (decide (ValueType.intType = ValueType.boolType)), initTypeSystem) := by
  refine ⟨(isSubtype_cases 1 initTypeSystem .intType .objectType).1 rfl,
    (isSubtype_cases 1 initTypeSystem (.classRef "int") (.classRef "bool")).2.1
      "int" "bool" rfl rfl,
    (isSubtype_cases 1 initTypeSystem .intType .boolType).2.2 (by decide) ?_⟩
  intro an bn h
  exact ValueType.noConfusion h.1

/-- C5: `canAssign a b` is the disjunction of `isSubtype a b` with (`a` is
`None` and `b` is none of `Int`, `Str`, `Bool`); in particular `None` is
assignable to `ClassRef "object"` but to none of the three non-nullable
primitives. -/
theorem canAssign_spec (fuel : Nat) (ts ts' : TypeSystem) (a b : ValueType)
    (s : Bool) (hsub : isSubtype fuel ts a b = (.ok s, ts')) :
    canAssign fuel ts a b =
      (.ok (s || decide (a = .noneType ∧
        b ∉ [ValueType.intType, ValueType.strType, ValueType.boolType])), ts') ∧
    canAssign fuel ts .noneType (.classRef "object") = (.ok true, ts) ∧
    canAssign fuel ts .noneType .intType = (.ok false, ts) ∧
    canAssign fuel ts .noneType .boolType = (.ok false, ts) ∧
    canAssign fuel ts .noneType .strType = (.ok false, ts) := by
  refine ⟨?_, ?_, ?_, ?_, ?_⟩
  · cases s
    · simp [canAssign, hsub]
    · simp [canAssign, hsub]
  · simp [canAssign, isSubtype]
  · simp [canAssign, isSubtype]
  · simp [canAssign, isSubtype]
  · simp [canAssign, isSubtype]

theorem canAssign_spec_witness :
    canAssign 1 initTypeSystem .noneType (.classRef "object") =
      (.ok true, initTypeSystem) ∧
    canAssign 1 initTypeSystem .noneType .intType = (.ok false, initTypeSystem) := by
  have h := canAssign_spec 1 initTypeSystem initTypeSystem .noneType
    (.classRef "object") false (by decide)
  exact ⟨h.2.1, h.2.2.1⟩

/-- C6: on a well-formed chain (with duplicate-free per-class method tables),
`getAllMethods` returns a duplicate-free table that maps every method name to
its signature paired with the nearest defining class on the chain — the same
answer the leaf-to-root walk `getMethodHelper` gives, so the root-to-leaf
merge replaces ancestor entries instead of appending to them. -/
theorem getAllMethods_spec (fuel : Nat) (ts : TypeSystem) (c : String)
    (la : List String) (hchain : superChain fuel ts c = some la)
    (hnd : ∀ d ∈ la, ((methodsOf ts d).map Prod.fst).Nodup) :
    ∃ M, getAllMethods fuel ts c = (.ok M, ts) ∧
      (M.map Prod.fst).Nodup ∧
      (∀ n, dictLookup n M = firstMethodHit ts n la) ∧
      (∀ n, getMethodHelper fuel ts c n = (.ok (optPair (dictLookup n M)), ts)) := by
  refine ⟨mergeChainMethods ts la, getAllMethods_char hchain,
    mergeChainMethods_nodup ts la, fun n => mergeChainMethods_lookup ts n la hnd,
    fun n => ?_⟩
  rw [getMethodHelper_char hchain n, mergeChainMethods_lookup ts n la hnd]

theorem getAllMethods_spec_witness :
    ∃ M, getAllMethods 3 tsBC "B" = (.ok M, tsBC) ∧
      (M.map Prod.fst).Nodup ∧
      (∀ n, dictLookup n M = firstMethodHit tsBC n ["B", "A", "object"]) ∧
      (∀ n, getMethodHelper 3 tsBC "B" n = (.ok (optPair (dictLookup n M)), tsBC)) :=
  getAllMethods_spec 3 tsBC "B" ["B", "A", "object"] (by decide) (by decide)

/-- C7: on a well-formed chain, a member name declared nowhere on the chain
makes every lookup operation return its explicit not-found marker
(`(None, None)` / `None`) with the registry unchanged, and a declared name is
resolved at the first (closest) class of the chain that declares it. -/
theorem lookup_notFound_spec (fuel : Nat) (ts : TypeSystem) (c : String)
    (la : List String) (name : String) (hchain : superChain fuel ts c = some la) :
    ((∀ d ∈ la, dictLookup name (methodsOf ts d) = none) →
      getMethodHelper fuel ts c name = (.ok (none, none), ts) ∧
      getMethod fuel ts c name = (.ok none, ts) ∧
      getMethodDefClass fuel ts c name = (.ok none, ts)) ∧
    ((∀ d ∈ la, dictLookup name (attrsOf ts d) = none) →
      getAttrHelper fuel ts c name = (.ok (none, none), ts) ∧
      getAttr fuel ts c name = (.ok none, ts) ∧
      getAttrInit fuel ts c name = (.ok none, ts)) ∧
    ((∀ d ∈ la, dictLookup name (methodsOf ts d) = none ∧
        dictLookup name (attrsOf ts d) = none) →
      getAttrOrMethod fuel ts c name = (.ok none, ts)) ∧
    (∀ l₁ d l₂ sig, la = l₁ ++ d :: l₂ →
      (∀ e ∈ l₁, dictLookup name (methodsOf ts e) = none) →
      dictLookup name (methodsOf ts d) = some sig →
      getMethodHelper fuel ts c name = (.ok (some sig, some d), ts)) ∧
    (∀ l₁ d l₂ t v, la = l₁ ++ d :: l₂ →
      (∀ e ∈ l₁, dictLookup name (attrsOf ts e) = none) →
      dictLookup name (attrsOf ts d) = some (t, v) →
      getAttrHelper fuel ts c name = (.ok (some t, some v), ts)) := by
  refine ⟨?_, ?_, ?_, ?_, ?_⟩
  · intro h
    have hnone := firstMethodHit_none h
    exact ⟨by rw [getMethodHelper_char hchain name, hnone]; rfl,
      by rw [getMethod_char hchain name, hnone]; rfl,
      by rw [getMethodDefClass_char hchain name, hnone]; rfl⟩
  · intro h
    have hnone := firstAttrHit_none h
    exact ⟨by rw [getAttrHelper_char hchain name, hnone]; rfl,
      by rw [getAttr_char hchain name, hnone]; rfl,
      by rw [getAttrInit_char hchain name, hnone]; rfl⟩
  · intro h
    have hnone := firstMemberHit_none h
    rw [getAttrOrMethod_char hchain name, hnone]
  · intro l₁ d l₂ sig hsplit h1 hd
    subst hsplit
    rw [getMethodHelper_char hchain name, firstMethodHit_split l₁ l₂ h1 hd]
    rfl
  · intro l₁ d l₂ t v hsplit h1 hd
    subst hsplit
    rw [getAttrHelper_char hchain name, firstAttrHit_split l₁ l₂ h1 hd]
    rfl

theorem lookup_notFound_spec_witness :
    getMethod 3 tsBC "B" "zzz" = (.ok none, tsBC) ∧
    getAttrOrMethod 3 tsBC "B" "zzz" = (.ok none, tsBC) ∧
    getMethodHelper 3 tsBC "B" "__init__" =
      (.ok (some (.funcType [.objectType] .noneType), some "object"), tsBC) := by
  have h1 := lookup_notFound_spec 3 tsBC "B" ["B", "A", "object"] "zzz" (by decide)
  have h2 := lookup_notFound_spec 3 tsBC "B" ["B", "A", "object"] "__init__" (by decide)
  exact ⟨(h1.1 (by decide)).2.1, h1.2.2.1 (by decide),
    h2.2.2.2.1 ["B", "A"] "object" [] (.funcType [.objectType] .noneType)
      (by decide) (by decide) (by decide)⟩

/-- C8: querying `getMethod` with a class name absent from the registry fails
with an `AttributeError`, but the `defaultdict` access first inserts the name
bound to the null sentinel, so `classExists` subsequently reports the name as
existing: the failed query mutates the registry. -/
theorem getMethod_missing_class_mutates (fuel : Nat) (ts : TypeSystem)
    (name methodName : String) (h : classExists ts name = false) :
    getMethod (fuel + 1) ts name methodName =
      (.error .attributeError, ⟨ts.classes ++ [(name, none)]⟩) ∧
    classExists ⟨ts.classes ++ [(name, none)]⟩ name = true := by
  have hl : dictLookup name ts.classes = none := by
    cases hd : dictLookup name ts.classes with
    | none => rfl
    | some v => rw [classExists, hd] at h; simp at h
  constructor
  · simp [getMethod, getMethodHelper, subscript_miss hl]
  · simp [classExists, dictLookup_append_self hl]

theorem getMethod_missing_class_mutates_witness :
    getMethod 4 initTypeSystem "Missing" "m" =
      (.error .attributeError, ⟨initTypeSystem.classes ++ [("Missing", none)]⟩) ∧
    classExists ⟨initTypeSystem.classes ++ [("Missing", none)]⟩ "Missing" = true :=
  getMethod_missing_class_mutates 3 initTypeSystem "Missing" "m" (by decide)

/-- C9: for two class-reference types neither assignable to the other, `join`
returns `ObjectType()` whatever common ancestors exist below `object`: the
second ancestor walk appends into the first walk's list, `bAncestors` stays
empty and the lowest-common-ancestor scan (which would return a raw
`ClassInfo`) is never entered. -/
theorem join_unrelated_returns_object (fuel : Nat) (ts : TypeSystem)
    (an bn : String) (la lb : List String)
    (ha : superChain fuel ts an = some la) (hb : superChain fuel ts bn = some lb)
    (hab : (canAssign fuel ts (.classRef an) (.classRef bn)).1 = .ok false)
    (hba : (canAssign fuel ts (.classRef bn) (.classRef an)).1 = .ok false) :
    join fuel ts (.classRef an) (.classRef bn) = (.ok (.vt .objectType), ts) := by
  rw [canAssign_classRef_char ha bn] at hab
  rw [canAssign_classRef_char hb an] at hba
  simp only [decide_eq_true_eq] at hab hba
  simp only [Except.ok.injEq, decide_eq_false_iff_not] at hab hba
  rw [join_classRef_char ha hb]
  simp [hab, hba]

theorem join_unrelated_returns_object_witness :
    join 3 tsBC (.classRef "B") (.classRef "C") = (.ok (.vt .objectType), tsBC) :=
  join_unrelated_returns_object 3 tsBC "B" "C" ["B", "A", "object"]
    ["C", "A", "object"] (by decide) (by decide) (by decide) (by decide)

/-- C10: on an acyclic registry rooted through registered superclasses, every
query operation terminates with a result (and leaves the registry unchanged):
fuel equal to the chain length (the inheritance depth) already determines
`isSubClass`, and `getMethod`, `getAttr`, `getAttrOrMethod`, `getAllMethods`,
`getOrderedAttrs` (on covered attribute lists) and `join` all return `ok`. -/
theorem queries_terminate (fuel : Nat) (ts : TypeSystem) (a b : String)
    (la lb : List String)
    (ha : superChain fuel ts a = some la) (hb : superChain fuel ts b = some lb)
    (hcov : ∀ d ∈ la, ∀ n ∈ orderedAttrsOf ts d, (dictLookup n (attrsOf ts d)).isSome) :
    (∀ n, ∃ r, isSubClass fuel ts a n = (.ok r, ts)) ∧
    (∀ n, isSubClass la.length ts a n = isSubClass fuel ts a n) ∧
    (∀ n, ∃ r, getMethod fuel ts a n = (.ok r, ts)) ∧
    (∀ n, ∃ r, getAttr fuel ts a n = (.ok r, ts)) ∧
    (∀ n, ∃ r, getAttrOrMethod fuel ts a n = (.ok r, ts)) ∧
    (∃ r, getAllMethods fuel ts a = (.ok r, ts)) ∧
    (∃ r, getOrderedAttrs fuel ts a = (.ok r, ts)) ∧
    (∃ r, join fuel ts (.classRef a) (.classRef b) = (.ok r, ts)) := by
  have hshr := superChain_shrink ha
  refine ⟨fun n => ⟨_, isSubClass_char ha n⟩,
    fun n => by rw [isSubClass_char ha n, isSubClass_char hshr n],
    fun n => ⟨_, getMethod_char ha n⟩,
    fun n => ⟨_, getAttr_char ha n⟩,
    fun n => ⟨_, getAttrOrMethod_char ha n⟩,
    ⟨_, getAllMethods_char ha⟩,
    getOrderedAttrs_ok ha hcov,
    ?_⟩
  rw [join_classRef_char ha hb]
  by_cases h1 : b ∈ la
  · exact ⟨_, by rw [if_pos h1]⟩
  · by_cases h2 : a ∈ lb
    · exact ⟨_, by rw [if_neg h1, if_pos h2]⟩
    · exact ⟨_, by rw [if_neg h1, if_neg h2]⟩

theorem queries_terminate_witness :
    (∃ r, getOrderedAttrs 3 tsPD "D" = (.ok r, tsPD)) ∧
    (∃ r, join 3 tsPD (.classRef "D") (.classRef "P") = (.ok r, tsPD)) := by
  have h := queries_terminate 3 tsPD "D" "P" ["D", "P", "object"] ["P", "object"]
    (by decide) (by decide) (by decide)
  exact ⟨h.2.2.2.2.2.2.1, h.2.2.2.2.2.2.2⟩

end TypeSystem
